import Mathlib

/-!
Shallow embedding of the iris HTTP router core (route handler-chain
composition, path-correction redirects, the domain router dispatch loop and
the memory router cache), together with proofs of the specified properties.

Go slices are modelled as Lean lists (value semantics); Go's `copy` builtin,
which copies `min(len dst, len src)` elements and permits overlapping
arguments with memmove semantics, is modelled functionally by `goCopy`.
Machine `int` indices are modelled as `Nat` where the code keeps them
non-negative (slice lengths and cursors) and as `Int` where a negative value
is representable through the public API (`MaxItems`).
-/

namespace Iris

variable {α : Type} {β : Type}

/-- Go `copy(dst, src)`: the new contents of `dst` after copying
`min(len dst, len src)` elements from the (snapshot of) `src`. -/
def goCopy (dst src : List α) : List α :=
  src.take dst.length ++ dst.drop (min src.length dst.length)

/-- Go `copy(l[pos:], src)`: the new contents of the whole slice `l` after
copying `src` onto its tail starting at `pos`. -/
def copyAt (l : List α) (pos : Nat) (src : List α) : List α :=
  l.take pos ++ goCopy (l.drop pos) src

/-- The `Route` struct of `route.go`, restricted to the fields the verified
operations read or write: the path strings used by `ResolvePath` and the
handler-chain bookkeeping used by `use`/`done`/`fallback`/`BuildHandlers`.
Handlers are abstract values of type `α`.  The metadata fields
(`Name`, `Method`, `Subdomain`, `MainHandlerName`, `tmpl`) are not modelled:
no verified operation depends on them. -/
structure Route (α : Type) where
  Path : String
  FormattedPath : String
  beginHandlers : List α
  Handlers : List α
  doneHandlers : List α
  beginHandlerIndex : Nat
  fallbackHandlerIndex : Nat
  isSpecial : Bool
deriving DecidableEq

/-- `NewRoute`: the freshly constructed route has the compiled handlers as
its main chain, `fallbackHandlerIndex` initialized to their count, and the
zero values for the zone buffers, `beginHandlerIndex` and `isSpecial`. -/
def NewRoute (path formattedPath : String) (handlers : List α) : Route α :=
  { Path := path
    FormattedPath := formattedPath
    beginHandlers := []
    Handlers := handlers
    doneHandlers := []
    beginHandlerIndex := 0
    fallbackHandlerIndex := handlers.length
    isSpecial := false }

/-- `Route.use`: append explicit begin handlers to the pending begin zone
buffer; a no-op on empty input. -/
def Route.use (r : Route α) (handlers : List α) : Route α :=
  if handlers.length = 0 then r
  else { r with beginHandlers := r.beginHandlers ++ handlers }

/-- `Route.done`: append explicit done handlers to the pending done zone
buffer; a no-op on empty input. -/
def Route.done (r : Route α) (handlers : List α) : Route α :=
  if handlers.length = 0 then r
  else { r with doneHandlers := r.doneHandlers ++ handlers }

/-- `Route.fallback`: append the handlers, then, unless the appended chain
already ends at `fallbackHandlerIndex`, shift the old suffix right with two
overlapping `copy` calls so that the new handlers sit at the cursor, and
advance the cursor.  The empty-input short-circuit is skipped for special
routes. -/
def Route.fallback (r : Route α) (handlers : List α) : Route α :=
  if handlers.length = 0 ∧ r.isSpecial = false then r
  else
    let hs := r.Handlers ++ handlers
    if hs.length ≠ r.fallbackHandlerIndex then
      let start := r.fallbackHandlerIndex
      let fidx := r.fallbackHandlerIndex + handlers.length
      let hs1 := copyAt hs fidx (hs.drop start)
      let hs2 := copyAt hs1 start handlers
      { r with Handlers := hs2, fallbackHandlerIndex := fidx }
    else { r with Handlers := hs }

/-- The return convention of `Route.BuildHandlers`: `nil` (modelled `none`)
for an empty chain, otherwise the chain itself. -/
def chainOf (l : List α) : Option (List α) :=
  if l.length = 0 then none else some l

/-- `Route.BuildHandlers`: prepend the pending begin handlers (moving the
already-built begin zone back to the head with two `copy` calls when it is
non-empty), advance both cursors, append the pending done handlers, reset
both zone buffers, and return the final chain (`none` models the `nil`
return for an empty chain).  The first component is the mutated route. -/
def Route.buildHandlers (r : Route α) : Route α × Option (List α) :=
  let beginHandlerCount := r.beginHandlers.length
  let r1 :=
    if 0 < beginHandlerCount then
      let fidx := r.fallbackHandlerIndex + beginHandlerCount
      let hs1 := r.beginHandlers ++ r.Handlers
      let start := r.beginHandlerIndex
      let bidx := r.beginHandlerIndex + beginHandlerCount
      let hs3 :=
        if 0 < start then
          let hs2 := copyAt hs1 0 ((hs1.drop beginHandlerCount).take (bidx - beginHandlerCount))
          copyAt hs2 start r.beginHandlers
        else hs1
      { r with
          Handlers := hs3
          beginHandlers := []
          beginHandlerIndex := bidx
          fallbackHandlerIndex := fidx }
    else r
  let r2 :=
    if 0 < r1.doneHandlers.length then
      { r1 with Handlers := r1.Handlers ++ r1.doneHandlers, doneHandlers := [] }
    else r1
  (r2, chainOf r2.Handlers)

/-- Modelled from the spec: the router package's parameter-marker constant
(`ParamStart` of its path-syntax file, not under src/); §3 describes the
router-internal path as using `:name` parameter segments. -/
def ParamStart : String := ":"

/-- Modelled from the spec: the router package's wildcard-marker constant
(`WildcardParamStart`, not under src/); §4.2 describes trailing wildcard
segments written with `*`. -/
def WildcardParamStart : String := "*"

/-- Characters Go's `fmt.Sprintf` appends when the format string is
exhausted while arguments remain: `%!(EXTRA string=a1, string=a2)`. -/
def extraChars (args : List String) : List Char :=
  ("%!(EXTRA " ++ String.intercalate ", " (args.map (fun a => "string=" ++ a)) ++ ")").data

/-- Go `fmt.Sprintf` restricted to `%v` verbs and string arguments — the
only use `ResolvePath` makes of it: each `%v` consumes the next argument, a
`%v` with no argument left prints `%!v(MISSING)`, and leftover arguments are
reported in an `%!(EXTRA ...)` suffix. -/
def sprintfVAux : List Char → List String → List Char
  | [], [] => []
  | [], a :: tl => extraChars (a :: tl)
  | [c], as => c :: sprintfVAux [] as
  | c1 :: c2 :: rest, as =>
    if c1 = '%' ∧ c2 = 'v' then
      match as with
      | a :: tl => a.data ++ sprintfVAux rest tl
      | [] => "%!v(MISSING)".data ++ sprintfVAux rest []
    else c1 :: sprintfVAux (c2 :: rest) as

def sprintfV (f : String) (args : List String) : String :=
  String.mk (sprintfVAux f.data args)

/-- Go `strings.Replace(s, "%v", t, 1)`: replace the first occurrence of
`%v` in `s` by `t`. -/
def replaceFirstV : List Char → List Char → List Char
  | [], _ => []
  | [c], _ => [c]
  | c1 :: c2 :: rest, t =>
    if c1 = '%' ∧ c2 = 'v' then t ++ rest
    else c1 :: replaceFirstV (c2 :: rest) t

def stringsReplaceV (s t : String) : String :=
  String.mk (replaceFirstV s.data t.data)

/-- `Route.ResolvePath`: a static route (path equal to its formatted path)
returns the path, ignoring args; a route whose path ends in the wildcard
marker joins all args with `/` and formats once; otherwise each arg replaces
the next `%v` placeholder left-to-right. -/
def Route.ResolvePath (r : Route α) (args : List String) : String :=
  let rpath := r.Path
  let formattedPath := r.FormattedPath
  if rpath = formattedPath then rpath
  else if rpath.data.getLast? = WildcardParamStart.data.head? then
    let parameter := String.intercalate "/" args
    sprintfV formattedPath [parameter]
  else args.foldl (fun fp s => stringsReplaceV fp s) formattedPath

/-- Modelled from the spec: the `HTTPMethods.ANY` list of HTTP method names
(not under src/), the sub-maps `resetBag` pre-initializes; its exact
contents are immaterial to the claims, which only distinguish membership. -/
def HTTPMethodsANY : List String :=
  ["GET", "POST", "PUT", "DELETE", "CONNECT", "HEAD", "PATCH", "OPTIONS", "TRACE"]

/-- Go map lookup on an association-list model of a map (`m[k]`, `nil`
meaning absent). -/
def lookupBag {β : Type} : List (String × β) → String → Option β
  | [], _ => none
  | (k1, v1) :: rest, k => if k1 = k then some v1 else lookupBag rest k

/-- Go map assignment on an association-list model of a map
(`m[k] = v`, replacing the existing entry or adding a new one). -/
def setBag {β : Type} : List (String × β) → String → β → List (String × β)
  | [], k, v => [(k, v)]
  | (k1, v1) :: rest, k, v =>
    if k1 = k then (k, v) :: rest else (k1, v1) :: setBag rest k v

/-- The `MemoryRouterCache` struct of `cache.go`: nested map from HTTP
method to a map from URL path to a stored context (contexts abstract, type
`α`).  Presence of a method key models a non-nil inner map.  `MaxItems` is a
Go `int`, so it is modelled as `Int`.  The mutex only serializes access and
has no functional content. -/
structure MemoryRouterCache (α : Type) where
  items : List (String × List (String × α))
  MaxItems : Int
deriving DecidableEq

/-- `resetBag`: re-initialize the sub-map of every method in
`HTTPMethods.ANY` to a fresh empty map. -/
def MemoryRouterCache.resetBag (mc : MemoryRouterCache α) : MemoryRouterCache α :=
  { mc with items := HTTPMethodsANY.foldl (fun its m => setBag its m []) mc.items }

/-- `NewMemoryRouterCache`: empty outer map and zero `MaxItems`, then
`resetBag`. -/
def NewMemoryRouterCache (α : Type) : MemoryRouterCache α :=
  MemoryRouterCache.resetBag ⟨[], 0⟩

/-- `SetMaxItems`. -/
def MemoryRouterCache.SetMaxItems (mc : MemoryRouterCache α) (itemslen : Int) :
    MemoryRouterCache α :=
  { mc with MaxItems := itemslen }

/-- `AddItem`: the body of the spawned goroutine, `mc.items[method][url] =
context`, once it has run under the lock.  When `method` has no initialized
sub-map the Go assignment writes to entry of a nil map and faults, modelled
by `none`. -/
def MemoryRouterCache.AddItem (mc : MemoryRouterCache α) (method url : String) (ctx : α) :
    Option (MemoryRouterCache α) :=
  match lookupBag mc.items method with
  | none => none
  | some inner => some { mc with items := setBag mc.items method (setBag inner url ctx) }

/-- `GetItem`: `mc.items[method][url]`, `nil` (absent) when either lookup
misses. -/
def MemoryRouterCache.GetItem (mc : MemoryRouterCache α) (method url : String) : Option α :=
  (lookupBag mc.items method).bind fun inner => lookupBag inner url

/-- `OnTick`: with no configured maximum, `resetBag`; otherwise replace each
method's sub-map whose entry count has reached `MaxItems` with a fresh empty
map, leaving the others untouched. -/
def MemoryRouterCache.OnTick (mc : MemoryRouterCache α) : MemoryRouterCache α :=
  if mc.MaxItems = 0 then mc.resetBag
  else
    { mc with
        items := mc.items.map fun kv =>
          if (kv.2.length : Int) ≥ mc.MaxItems then (kv.1, []) else kv }

/-- The trailing-slash toggle of `Router.find` under `mustRedirect`: `"/"`
for request paths of length at most 1, strip the trailing slash if present,
append one otherwise. -/
def toggleSlash (reqPath : String) : String :=
  if reqPath.length ≤ 1 then "/"
  else if reqPath.data.getLast? = some '/' then String.mk reqPath.data.dropLast
  else reqPath ++ "/"

/-- One segment step of Go stdlib `path.Clean` in segment-stack form: empty
and `.` segments vanish, `..` pops a pushed segment (and is dropped at the
root of a rooted path, kept for a relative path), anything else is pushed.
The accumulator holds the output segments in reverse. -/
def cleanStep (rooted : Bool) (acc : List String) (seg : String) : List String :=
  if seg = "" ∨ seg = "." then acc
  else if seg = ".." then
    match acc with
    | [] => if rooted then [] else [".."]
    | a :: rest => if a = ".." then seg :: a :: rest else rest
  else seg :: acc

/-- Split a character list on `/`. -/
def splitSlashAux : List Char → List Char → List (List Char)
  | [], cur => [cur.reverse]
  | c :: rest, cur =>
    if c = '/' then cur.reverse :: splitSlashAux rest []
    else splitSlashAux rest (c :: cur)

/-- Go stdlib `path.Clean`, which `Router.find` applies to the redirect
target; modelled in segment-stack form (equivalent to the lazybuf original):
collapse repeated slashes, eliminate `.` and `..` segments, return `.` for
an empty relative result, and keep the leading `/` of a rooted path. -/
def pathClean (p : String) : String :=
  if p = "" then "."
  else
    let rooted := p.data.head? = some '/'
    let segs := ((splitSlashAux p.data []).map String.mk).foldl (cleanStep rooted) []
    let out := String.intercalate "/" segs.reverse
    if rooted then "/" ++ out
    else if out = "" then "." else out

/-- The data of one per-method tree that `Router.find` consults: its method
and its registered routes (path, handler chain). -/
structure SpecTree (α : Type) where
  method : String
  routes : List (String × List α)
deriving DecidableEq

/-- Modelled from the spec: the per-method path trie
(`tree.rootBranch.GetBranch`) is not under src/.  Per §4.2, `match(path)`
returns the matched route's handler chain, or signals `mustRedirect` when
the path differs from a registered path only by a trailing slash, or
reports no match.  Parameter extraction is not modelled; no claim depends
on it. -/
def getBranch (t : SpecTree α) (reqPath : String) : Option (List α) × Bool :=
  match t.routes.find? (fun rt => rt.1 == reqPath) with
  | some rt => (some rt.2, false)
  | none =>
    (none, t.routes.any fun rt => rt.1 == reqPath ++ "/" || reqPath == rt.1 ++ "/")

/-- Observable outcome of `Router.find`: the served middleware, a redirect
response (Location, status code, whether the HTML note body was written),
or the not-found handler. -/
inductive FindOutcome (α : Type) where
  | matched (middleware : List α)
  | redirect (location : String) (status : Nat) (withNote : Bool)
  | notFound
deriving DecidableEq

/-- The redirect target `Router.find` computes from the request URL path:
toggle the trailing slash, then — the request URL being an origin-form path
with empty scheme and host — `path.Clean` it, restoring a trailing slash
that cleaning removed. -/
def redirectLocation (urlPath : String) : String :=
  let reqPath := toggleSlash urlPath
  let urlToRedirect := reqPath
  let trailing := urlToRedirect.data.getLast? = some '/'
  let cleaned := pathClean urlToRedirect
  if trailing ∧ ¬cleaned.data.getLast? = some '/' then cleaned ++ "/" else cleaned

/-- `Router.find`: serve the matched middleware; otherwise, on
`mustRedirect` with path correction enabled, emit a permanent redirect
(status 301) to the slash-toggled, cleaned URL, writing the HTML note body
only when the tree's method is GET; otherwise not-found.  `lookupPath` is
the (possibly host-prefixed) path handed to the trie; `urlPath` is the
request URL's own path, which the redirect branch re-reads.  Request URLs
are modelled as origin-form paths (empty scheme and host, no query), for
which `url.Parse` succeeds. -/
def find (t : SpecTree α) (pathCorrection : Bool) (lookupPath urlPath : String) :
    FindOutcome α :=
  match getBranch t lookupPath with
  | (some middleware, _) => .matched middleware
  | (none, mustRedirect) =>
    if mustRedirect && pathCorrection then
      .redirect (redirectLocation urlPath) 301 (t.method == "GET")
    else .notFound

/-- The toggled path is `Clean`-stable: `path.Clean` alters it by at most
the trailing slash the code restores.  Every path whose toggled form is a
cleanly-registered route path (or that path plus a trailing slash)
satisfies this. -/
def cleanStable (p : String) : Prop :=
  (¬p.data.getLast? = some '/' ∧ pathClean p = p) ∨
    (p.data.getLast? = some '/' ∧ pathClean p ++ "/" = p ∧
      ¬(pathClean p).data.getLast? = some '/') ∨
    p = "/"

instance (p : String) : Decidable (cleanStable p) := by
  unfold cleanStable
  exact inferInstance

/-- The per-tree data `RouterDomain.processRequest` consults: the tree's
method, whether it is host-scoped (`hosts`), and its `domain`. -/
structure TreeD where
  method : String
  hosts : Bool
  domain : String
deriving DecidableEq

/-- The dispatch loop of `RouterDomain.processRequest` over the garden: skip
host-scoped trees whose domain differs from the request host, prefix the
loop-carried request path with the host when a host-scoped tree's domain
matches, and hand the current path to the first tree whose method matches
(`none` models the fall-through to `ctx.NotFound()`).  The result pairs the
matched tree with the path passed to `find`. -/
def processRequestDomain : List TreeD → String → String → String → Option (TreeD × String)
  | [], _, _, _ => none
  | t :: rest, host, method, reqPath =>
    if t.hosts then
      if t.domain ≠ host then processRequestDomain rest host method reqPath
      else
        if t.method = method then some (t, host ++ reqPath)
        else processRequestDomain rest host method (host ++ reqPath)
    else
      if t.method = method then some (t, reqPath)
      else processRequestDomain rest host method reqPath

/-- `n`-fold host prefixing of a path. -/
def hostPrefixIter (host : String) : Nat → String → String
  | 0, p => p
  | n + 1, p => host ++ hostPrefixIter host n p

theorem goCopy_of_le (dst src : List α) (h : dst.length ≤ src.length) :
    goCopy dst src = src.take dst.length := by
  simp [goCopy, Nat.min_eq_right h, List.drop_length]

theorem goCopy_of_ge (dst src : List α) (h : src.length ≤ dst.length) :
    goCopy dst src = src ++ dst.drop src.length := by
  simp [goCopy, Nat.min_eq_left h, List.take_of_length_le h]

/-- The two overlapping `copy` calls of `Route.fallback` amount to splicing
the new handlers at the cursor. -/
theorem splice_copies (H fb : List α) (fi : Nat) (hfi : fi ≤ H.length) :
    copyAt (copyAt (H ++ fb) (fi + fb.length) ((H ++ fb).drop fi)) fi fb =
      H.take fi ++ fb ++ H.drop fi := by
  have hdlen : ((H ++ fb).drop (fi + fb.length)).length ≤ ((H ++ fb).drop fi).length := by
    simp only [List.length_drop, List.length_append]
    omega
  have h1 : copyAt (H ++ fb) (fi + fb.length) ((H ++ fb).drop fi)
      = (H ++ fb).take (fi + fb.length) ++ H.drop fi := by
    rw [copyAt, goCopy_of_le _ _ hdlen]
    congr 1
    rw [List.drop_append_of_le_length hfi, List.length_drop, List.length_append]
    exact List.take_left' (by rw [List.length_drop]; omega)
  rw [h1, copyAt]
  have hlen1 : ((H ++ fb).take (fi + fb.length)).length = fi + fb.length := by
    rw [List.length_take, List.length_append]
    omega
  have htake : ((H ++ fb).take (fi + fb.length) ++ H.drop fi).take fi = H.take fi := by
    rw [List.take_append_of_le_length (by omega), List.take_take,
      Nat.min_eq_left (by omega), List.take_append_of_le_length hfi]
  have hdrop : ((H ++ fb).take (fi + fb.length) ++ H.drop fi).drop fi
      = ((H ++ fb).take (fi + fb.length)).drop fi ++ H.drop fi :=
    List.drop_append_of_le_length (by omega)
  have hglen : fb.length ≤ (((H ++ fb).take (fi + fb.length) ++ H.drop fi).drop fi).length := by
    simp only [List.length_drop, List.length_append, hlen1]
    omega
  rw [goCopy_of_ge _ _ hglen, htake, List.drop_drop,
    List.drop_left' hlen1, List.append_assoc]

/-- State-level characterization of `Route.fallback`: under the cursor
invariant, the main chain is spliced at the cursor and the cursor advances
by the inserted count; all other fields are untouched. -/
theorem fallback_state (pa fp : String) (pb H pd : List α) (bi fi : Nat) (sp : Bool)
    (fb : List α) (hfi : fi ≤ H.length) :
    Route.fallback ⟨pa, fp, pb, H, pd, bi, fi, sp⟩ fb =
      ⟨pa, fp, pb, H.take fi ++ fb ++ H.drop fi, pd, bi, fi + fb.length, sp⟩ := by
  by_cases h0 : fb.length = 0 ∧ sp = false
  · have hfb : fb = [] := List.length_eq_zero.mp h0.1
    subst hfb
    simp [Route.fallback, h0.2]
  · by_cases h1 : (H ++ fb).length = fi
    · have hl : H.length + fb.length = fi := by simpa using h1
      have hfb : fb = [] := List.length_eq_zero.mp (by omega)
      subst hfb
      have hfin : fi = H.length := by omega
      subst hfin
      simp [Route.fallback, h0]
    · simp only [Route.fallback, if_neg h0]
      rw [if_pos h1]
      rw [splice_copies H fb fi hfi]

/-- The two `copy` calls of `Route.buildHandlers` move the already-built
begin zone back to the head and place the pending begin handlers right
after it. -/
theorem build_copies (B X pb : List α) :
    copyAt (copyAt (pb ++ (B ++ X)) 0
        (((pb ++ (B ++ X)).drop pb.length).take (B.length + pb.length - pb.length)))
      B.length pb = B ++ (pb ++ X) := by
  have hdrop1 : (pb ++ (B ++ X)).drop pb.length = B ++ X := List.drop_left pb (B ++ X)
  have htk : (B ++ X).take (B.length + pb.length - pb.length) = B := by
    rw [Nat.add_sub_cancel]
    exact List.take_left B X
  have hin : copyAt (pb ++ (B ++ X)) 0
      (((pb ++ (B ++ X)).drop pb.length).take (B.length + pb.length - pb.length))
      = B ++ (pb ++ (B ++ X)).drop B.length := by
    rw [hdrop1, htk, copyAt, List.take_zero, List.drop_zero, List.nil_append,
      goCopy_of_ge _ _ (by simp only [List.length_append]; omega)]
  rw [hin, copyAt, List.take_left' rfl]
  have hd2 : (B ++ (pb ++ (B ++ X)).drop B.length).drop B.length
      = (pb ++ (B ++ X)).drop B.length := List.drop_left B _
  rw [hd2, goCopy_of_ge _ _ (by simp only [List.length_drop, List.length_append]; omega)]
  congr 1
  rw [List.drop_drop]
  have : (pb ++ (B ++ X)) = (pb ++ B) ++ X := by rw [List.append_assoc]
  rw [this, List.drop_left' (by rw [List.length_append]; omega)]

/-- State-level characterization of `Route.buildHandlers` on a route whose
chain decomposes into a built begin zone `B`, a main-plus-fallback zone `MF`
and a built done zone `Dz`, with pending begin handlers `pb` and pending
done handlers `pd`: the pending zones are merged in add-order at their zone
positions, both cursors advance past the new begin handlers, and the zone
buffers are reset. -/
theorem buildHandlers_state (pa fp : String) (B MF Dz pb pd : List α) (sp : Bool) :
    Route.buildHandlers ⟨pa, fp, pb, B ++ MF ++ Dz, pd, B.length, B.length + MF.length, sp⟩ =
      (⟨pa, fp, [], B ++ pb ++ MF ++ Dz ++ pd, [], B.length + pb.length,
          B.length + pb.length + MF.length, sp⟩,
        chainOf (B ++ pb ++ MF ++ Dz ++ pd)) := by
  have hnat : B.length + MF.length + pb.length = B.length + pb.length + MF.length := by omega
  by_cases hpb : pb.length = 0
  · have hpbe : pb = [] := List.length_eq_zero.mp hpb
    subst hpbe
    by_cases hpd : 0 < pd.length
    · simp only [Route.buildHandlers, List.length_nil, Nat.lt_irrefl, if_false, if_pos hpd]
      simp [List.append_assoc]
    · have hpde : pd = [] := List.length_eq_zero.mp (by omega)
      subst hpde
      simp [Route.buildHandlers]
  · have hpb' : 0 < pb.length := by omega
    by_cases hB : 0 < B.length
    · by_cases hpd : 0 < pd.length
      · simp only [Route.buildHandlers, if_pos hpb', if_pos hB, if_pos hpd]
        simp only [List.append_assoc]
        rw [build_copies B (MF ++ Dz) pb, hnat]
        simp [List.append_assoc]
      · have hpde : pd = [] := List.length_eq_zero.mp (by omega)
        subst hpde
        simp only [Route.buildHandlers, if_pos hpb', if_pos hB]
        simp only [List.append_assoc]
        rw [build_copies B (MF ++ Dz) pb, hnat]
        simp [List.append_assoc]
    · have hBe : B = [] := List.length_eq_zero.mp (by omega)
      subst hBe
      by_cases hpd : 0 < pd.length
      · simp only [Route.buildHandlers, if_pos hpb', List.length_nil, Nat.lt_irrefl, if_false,
          if_pos hpd, hnat]
        simp [List.append_assoc]
        omega
      · have hpde : pd = [] := List.length_eq_zero.mp (by omega)
        subst hpde
        simp only [Route.buildHandlers, if_pos hpb', List.length_nil, Nat.lt_irrefl, if_false,
          hnat]
        simp [List.append_assoc]
        omega

theorem use_state (pa fp : String) (pb H pd : List α) (bi fi : Nat) (sp : Bool)
    (hs : List α) :
    Route.use ⟨pa, fp, pb, H, pd, bi, fi, sp⟩ hs = ⟨pa, fp, pb ++ hs, H, pd, bi, fi, sp⟩ := by
  by_cases h : hs.length = 0
  · have hh : hs = [] := List.length_eq_zero.mp h
    subst hh
    simp [Route.use]
  · simp [Route.use, h]

theorem done_state (pa fp : String) (pb H pd : List α) (bi fi : Nat) (sp : Bool)
    (hs : List α) :
    Route.done ⟨pa, fp, pb, H, pd, bi, fi, sp⟩ hs = ⟨pa, fp, pb, H, pd ++ hs, bi, fi, sp⟩ := by
  by_cases h : hs.length = 0
  · have hh : hs = [] := List.length_eq_zero.mp h
    subst hh
    simp [Route.done]
  · simp [Route.done, h]

theorem buildHandlers_fst_reset (r : Route α) :
    (r.buildHandlers).1.beginHandlers = [] ∧ (r.buildHandlers).1.doneHandlers = [] := by
  by_cases h1 : 0 < r.beginHandlers.length
  · by_cases h2 : 0 < r.doneHandlers.length
    · simp [Route.buildHandlers, h1, h2]
    · have hd : r.doneHandlers = [] := List.length_eq_zero.mp (by omega)
      simp [Route.buildHandlers, h1, h2, hd]
  · have hb : r.beginHandlers = [] := List.length_eq_zero.mp (by omega)
    by_cases h2 : 0 < r.doneHandlers.length
    · simp [Route.buildHandlers, h1, h2, hb]
    · have hd : r.doneHandlers = [] := List.length_eq_zero.mp (by omega)
      simp [Route.buildHandlers, h1, h2, hb, hd]

theorem buildHandlers_snd (r : Route α) :
    (r.buildHandlers).2 = chainOf (r.buildHandlers).1.Handlers := rfl

theorem build_of_pending_empty (r : Route α) (h1 : r.beginHandlers = [])
    (h2 : r.doneHandlers = []) : r.buildHandlers = (r, chainOf r.Handlers) := by
  simp [Route.buildHandlers, h1, h2]

/-- C1: for every route state decomposed into a built begin zone `B`, a
main-plus-fallback zone `MF` and a built done zone `Dz` (with the cursors at
their zone boundaries) and pending begin/done batches `pb`, `pd`, building
yields exactly begin-zone ++ pending-begin ++ main ++ done-zone ++
pending-done; the concrete scenarios: adding `[A]`, `[M]`, `[F]`, `[D]` in
that order builds `A ++ M ++ F ++ D`; a second begin batch `A2` — whether
added before the first build or after an intervening build — lands
immediately after `A`, yielding `A ++ A2 ++ M ++ F ++ D`. -/
theorem route_buildHandlers_zone_ordering :
    (∀ (pa fp : String) (B MF Dz pb pd : List α) (sp : Bool),
        (Route.buildHandlers ⟨pa, fp, pb, B ++ MF ++ Dz, pd, B.length,
            B.length + MF.length, sp⟩).1.Handlers = B ++ pb ++ MF ++ Dz ++ pd) ∧
    (∀ (pa fp : String) (A M F D : List α),
        (((((NewRoute pa fp M).use A).fallback F).done D).buildHandlers).1.Handlers
          = A ++ M ++ F ++ D) ∧
    (∀ (pa fp : String) (A A2 M F D : List α),
        ((((((NewRoute pa fp M).use A).use A2).fallback F).done D).buildHandlers).1.Handlers
          = A ++ A2 ++ M ++ F ++ D) ∧
    (∀ (pa fp : String) (A A2 M F D : List α),
        ((((((((NewRoute pa fp M).use A).buildHandlers).1).use A2).fallback F).done
            D).buildHandlers).1.Handlers
          = A ++ A2 ++ M ++ F ++ D) ∧
    (∀ (pa fp : String) (A A2 M F1 F2 D1 D2 : List α),
        ((((((((NewRoute pa fp M).use A).use A2).fallback F1).fallback F2).done
            D1).done D2).buildHandlers).1.Handlers
          = A ++ A2 ++ M ++ F1 ++ F2 ++ D1 ++ D2) := by
  refine ⟨fun pa fp B MF Dz pb pd sp => ?_, fun pa fp A M F D => ?_,
    fun pa fp A A2 M F D => ?_, fun pa fp A A2 M F D => ?_,
    fun pa fp A A2 M F1 F2 D1 D2 => ?_⟩
  · rw [buildHandlers_state]
  · simp only [NewRoute]
    rw [use_state pa fp [] M [] 0 M.length false A]
    simp only [List.nil_append]
    rw [fallback_state pa fp A M [] 0 M.length false F (Nat.le_refl _)]
    simp only [List.take_length, List.drop_length, List.append_nil]
    rw [done_state pa fp A (M ++ F) [] 0 (M.length + F.length) false D]
    simp only [List.nil_append]
    have hb := buildHandlers_state pa fp ([] : List α) (M ++ F) ([] : List α) A D false
    simp only [List.nil_append, List.append_nil, List.length_nil, Nat.zero_add,
      List.length_append] at hb
    rw [hb]
    simp [List.append_assoc]
  · simp only [NewRoute]
    rw [use_state pa fp [] M [] 0 M.length false A]
    simp only [List.nil_append]
    rw [use_state pa fp A M [] 0 M.length false A2]
    rw [fallback_state pa fp (A ++ A2) M [] 0 M.length false F (Nat.le_refl _)]
    simp only [List.take_length, List.drop_length, List.append_nil]
    rw [done_state pa fp (A ++ A2) (M ++ F) [] 0 (M.length + F.length) false D]
    simp only [List.nil_append]
    have hb := buildHandlers_state pa fp ([] : List α) (M ++ F) ([] : List α) (A ++ A2) D false
    simp only [List.nil_append, List.append_nil, List.length_nil, Nat.zero_add,
      List.length_append] at hb
    rw [hb]
    simp [List.append_assoc]
  · simp only [NewRoute]
    rw [use_state pa fp [] M [] 0 M.length false A]
    simp only [List.nil_append]
    have hb1 := buildHandlers_state pa fp ([] : List α) M ([] : List α) A ([] : List α) false
    simp only [List.nil_append, List.append_nil, List.length_nil, Nat.zero_add] at hb1
    simp only [hb1]
    rw [use_state pa fp [] (A ++ M) [] A.length (A.length + M.length) false A2]
    simp only [List.nil_append]
    rw [fallback_state pa fp A2 (A ++ M) [] A.length (A.length + M.length) false F
      (by rw [List.length_append])]
    rw [show A.length + M.length = (A ++ M).length from (List.length_append A M).symm]
    simp only [List.take_length, List.drop_length, List.append_nil]
    rw [done_state pa fp A2 (A ++ M ++ F) [] A.length ((A ++ M).length + F.length) false D]
    simp only [List.nil_append]
    have hb2 := buildHandlers_state pa fp A (M ++ F) ([] : List α) A2 D false
    simp only [List.append_nil] at hb2
    rw [List.append_assoc A M F]
    rw [show (A ++ M).length + F.length = A.length + (M ++ F).length by
      simp [List.length_append, Nat.add_assoc]]
    simp only [hb2]
    simp [List.append_assoc]
  · simp only [NewRoute]
    rw [use_state pa fp [] M [] 0 M.length false A]
    simp only [List.nil_append]
    rw [use_state pa fp A M [] 0 M.length false A2]
    rw [fallback_state pa fp (A ++ A2) M [] 0 M.length false F1 (Nat.le_refl _)]
    simp only [List.take_length, List.drop_length, List.append_nil]
    rw [fallback_state pa fp (A ++ A2) (M ++ F1) [] 0 (M.length + F1.length) false F2
      (by rw [List.length_append])]
    rw [show M.length + F1.length = (M ++ F1).length from (List.length_append M F1).symm]
    simp only [List.take_length, List.drop_length, List.append_nil]
    rw [done_state pa fp (A ++ A2) (M ++ F1 ++ F2) [] 0 ((M ++ F1).length + F2.length)
      false D1]
    simp only [List.nil_append]
    rw [done_state pa fp (A ++ A2) (M ++ F1 ++ F2) D1 0 ((M ++ F1).length + F2.length)
      false D2]
    have hb := buildHandlers_state pa fp ([] : List α) (M ++ F1 ++ F2) ([] : List α)
      (A ++ A2) (D1 ++ D2) false
    simp only [List.nil_append, List.append_nil, List.length_nil, Nat.zero_add,
      List.length_append] at hb
    rw [show (M ++ F1).length + F2.length = M.length + F1.length + F2.length by
      rw [List.length_append]]
    rw [hb]
    simp [List.append_assoc]

/-- C2: for a non-special route, `fallback` with an empty handler list
leaves the route unchanged; for a special route the operation runs
unconditionally (and with an empty list preserves its splice state); with a
non-empty list the main chain becomes
`old.take fallbackHandlerIndex ++ handlers ++ old.drop fallbackHandlerIndex`
and the cursor advances by exactly the inserted count. -/
theorem route_fallback_splice :
    (∀ (r : Route α), r.isSpecial = false → r.fallback [] = r) ∧
    (∀ (pa fp : String) (pb H pd : List α) (bi fi : Nat), fi ≤ H.length →
        Route.fallback ⟨pa, fp, pb, H, pd, bi, fi, true⟩ []
          = ⟨pa, fp, pb, H, pd, bi, fi, true⟩) ∧
    (∀ (pa fp : String) (pb H pd : List α) (bi fi : Nat) (sp : Bool) (fb : List α),
        fb ≠ [] → fi ≤ H.length →
        (Route.fallback ⟨pa, fp, pb, H, pd, bi, fi, sp⟩ fb).Handlers
            = H.take fi ++ fb ++ H.drop fi ∧
        (Route.fallback ⟨pa, fp, pb, H, pd, bi, fi, sp⟩ fb).fallbackHandlerIndex
            = fi + fb.length) := by
  refine ⟨fun r h => ?_, fun pa fp pb H pd bi fi hfi => ?_,
    fun pa fp pb H pd bi fi sp fb hfb hfi => ?_⟩
  · simp [Route.fallback, h]
  · rw [fallback_state pa fp pb H pd bi fi true [] hfi]
    simp
  · rw [fallback_state pa fp pb H pd bi fi sp fb hfi]
    exact ⟨rfl, rfl⟩

theorem route_fallback_splice_witness :
    Route.fallback (⟨"/p", "/p", [], [1, 2], [], 0, 1, false⟩ : Route Nat) [] =
        ⟨"/p", "/p", [], [1, 2], [], 0, 1, false⟩ ∧
      (Route.fallback (⟨"/p", "/p", [], [1, 2], [], 0, 1, false⟩ : Route Nat) [9]).Handlers
          = [1, 9, 2] ∧
      (Route.fallback (⟨"/p", "/p", [], [1, 2], [], 0, 1, false⟩ : Route Nat)
          [9]).fallbackHandlerIndex = 2 := by
  have h1 := route_fallback_splice.1 (⟨"/p", "/p", [], [1, 2], [], 0, 1, false⟩ : Route Nat)
    (by decide)
  have h2 := route_fallback_splice.2.2 "/p" "/p" [] [1, 2] [] 0 1 false [9]
    (by decide) (by decide)
  exact ⟨h1, h2.1.trans (by decide), h2.2.trans (by decide)⟩

/-- C3: `buildHandlers` run twice in succession with no intervening
`use`/`done`/`fallback` produces the same state and the same chain: the
first build resets both temporary zone buffers, so the second build is the
identity. -/
theorem route_buildHandlers_idempotent (r : Route α) :
    (r.buildHandlers).1.buildHandlers = r.buildHandlers ∧
      ((r.buildHandlers).1.buildHandlers).2 = (r.buildHandlers).2 := by
  obtain ⟨h1, h2⟩ := buildHandlers_fst_reset r
  have h := build_of_pending_empty _ h1 h2
  have hmain : (r.buildHandlers).1.buildHandlers = r.buildHandlers := by
    rw [h, ← buildHandlers_snd r]
  exact ⟨hmain, by rw [hmain]⟩

theorem sprintfVAux_cons_ne (c : Char) (l : List Char) (as : List String) (hc : c ≠ '%') :
    sprintfVAux (c :: l) as = c :: sprintfVAux l as := by
  cases l with
  | nil => rfl
  | cons d tl => simp [sprintfVAux, hc]

theorem sprintfVAux_format (pre : List Char) (j : String) (hp : '%' ∉ pre) :
    sprintfVAux (pre ++ ['%', 'v']) [j] = pre ++ j.data := by
  induction pre with
  | nil => simp [sprintfVAux]
  | cons c pre ih =>
    have hc : c ≠ '%' := fun h => hp (by simp [h])
    have hp' : '%' ∉ pre := fun h => hp (List.mem_cons_of_mem _ h)
    simp only [List.cons_append]
    rw [sprintfVAux_cons_ne c _ _ hc, ih hp']

/-- C8: `ResolvePath` on a route with no parameters (path equal to its
formatted path) ignores args and returns the static path; on a route whose
path ends in the wildcard marker it joins all args with `/` and substitutes
the joined string once into the formatted path; and for the
`/api/user/{id:int}` route (internal path `/api/user/:id`, formatted path
`/api/user/%v`), `resolvePath("42")` returns `/api/user/42`. -/
theorem route_resolvePath_spec :
    (∀ (r : Route α) (args : List String), r.Path = r.FormattedPath →
        r.ResolvePath args = r.Path) ∧
    (∀ (r : Route α) (args : List String) (pre : List Char),
        ¬r.Path = r.FormattedPath → r.Path.data.getLast? = some '*' →
        r.FormattedPath.data = pre ++ ['%', 'v'] → '%' ∉ pre →
        r.ResolvePath args = String.mk (pre ++ (String.intercalate "/" args).data)) ∧
    (Route.ResolvePath
        (⟨"/api/user/:id", "/api/user/%v", [], [0], [], 0, 1, false⟩ : Route Nat)
        ["42"] = "/api/user/42") := by
  refine ⟨fun r args h => ?_, fun r args pre hne hwild hfp hpre => ?_, by decide⟩
  · simp [Route.ResolvePath, h]
  · have hhead : WildcardParamStart.data.head? = some '*' := rfl
    simp only [Route.ResolvePath, if_neg hne, hwild, hhead, if_pos rfl, sprintfV]
    rw [hfp, sprintfVAux_format pre _ hpre]
    simp

theorem route_resolvePath_spec_witness :
    Route.ResolvePath (⟨"/static", "/static", [], [0], [], 0, 1, false⟩ : Route Nat) ["zz"]
        = "/static" ∧
      Route.ResolvePath (⟨"/files/*", "/files/%v", [], [0], [], 0, 1, false⟩ : Route Nat)
        ["a", "b"] = "/files/a/b" := by
  constructor
  · exact route_resolvePath_spec.1
      (⟨"/static", "/static", [], [0], [], 0, 1, false⟩ : Route Nat) ["zz"] rfl
  · exact (route_resolvePath_spec.2.1
      (⟨"/files/*", "/files/%v", [], [0], [], 0, 1, false⟩ : Route Nat) ["a", "b"]
      "/files/".data (by decide) (by decide) (by decide) (by decide)).trans (by decide)

theorem lookupBag_setBag_self (its : List (String × β)) (k : String) (v : β) :
    lookupBag (setBag its k v) k = some v := by
  induction its with
  | nil => simp [setBag, lookupBag]
  | cons kv rest ih =>
    obtain ⟨k1, v1⟩ := kv
    by_cases h : k1 = k
    · simp [setBag, lookupBag, h]
    · simp [setBag, lookupBag, h, ih]

theorem lookupBag_setBag_ne (its : List (String × β)) (k m : String) (v : β)
    (h : ¬m = k) : lookupBag (setBag its k v) m = lookupBag its m := by
  have h' : ¬k = m := fun hh => h hh.symm
  induction its with
  | nil => simp [setBag, lookupBag, h']
  | cons kv rest ih =>
    obtain ⟨k1, v1⟩ := kv
    by_cases h1 : k1 = k
    · subst h1
      simp [setBag, lookupBag, h']
    · simp [setBag, lookupBag, h1, ih]

theorem lookupBag_foldl_set (ks : List String) (its : List (String × β)) (v0 : β)
    (m : String) :
    lookupBag (ks.foldl (fun a k => setBag a k v0) its) m
      = if m ∈ ks then some v0 else lookupBag its m := by
  induction ks generalizing its with
  | nil => simp
  | cons k ks ih =>
    simp only [List.foldl_cons]
    rw [ih]
    by_cases hm : m ∈ ks
    · simp [hm]
    · by_cases hk : m = k
      · subst hk
        simp [hm, List.mem_cons, lookupBag_setBag_self]
      · simp [hm, hk, List.mem_cons, lookupBag_setBag_ne its k m v0 hk]

theorem lookupBag_none_of_keys (its : List (String × β)) (S : List String)
    (hk : ∀ p ∈ its, p.1 ∈ S) (m : String) (hm : m ∉ S) : lookupBag its m = none := by
  induction its with
  | nil => rfl
  | cons kv rest ih =>
    obtain ⟨k1, v1⟩ := kv
    have h1 : k1 ∈ S := hk _ (List.mem_cons_self _ _)
    have hne : ¬k1 = m := fun h => hm (h ▸ h1)
    simp only [lookupBag, if_neg hne]
    exact ih fun p hp => hk p (List.mem_cons_of_mem _ hp)

theorem lookupBag_onTickMap (its : List (String × List (String × α))) (M : Int)
    (m : String) :
    lookupBag (its.map fun kv => if (kv.2.length : Int) ≥ M then (kv.1, []) else kv) m
      = (lookupBag its m).map fun v => if (v.length : Int) ≥ M then [] else v := by
  induction its with
  | nil => rfl
  | cons kv rest ih =>
    obtain ⟨k1, v1⟩ := kv
    simp only [List.map_cons]
    by_cases hc : (v1.length : Int) ≥ M
    · simp only [if_pos hc]
      by_cases h : k1 = m
      · simp [lookupBag, h, hc]
      · simp [lookupBag, h, ih]
    · simp only [if_neg hc]
      by_cases h : k1 = m
      · simp [lookupBag, h, hc]
      · simp [lookupBag, h, ih]

/-- C6: `onTick` with no configured maximum (`MaxItems = 0`) flushes
everything — in any cache state whose method keys are among the
pre-initialized HTTP methods (an invariant of every reachable cache), every
lookup is absent afterwards; with a configured maximum, exactly the
per-method sub-maps whose entry count has reached `MaxItems` are replaced by
empty maps and every other sub-map is left unchanged. -/
theorem cache_onTick_eviction (mc : MemoryRouterCache α) :
    (mc.MaxItems = 0 → (∀ p ∈ mc.items, p.1 ∈ HTTPMethodsANY) →
      ∀ m u, (mc.OnTick).GetItem m u = none) ∧
    (¬mc.MaxItems = 0 →
      ∀ m, lookupBag (mc.OnTick).items m
        = (lookupBag mc.items m).map fun v =>
            if (v.length : Int) ≥ mc.MaxItems then [] else v) := by
  constructor
  · intro h0 hkeys m u
    simp only [MemoryRouterCache.OnTick, if_pos h0, MemoryRouterCache.GetItem,
      MemoryRouterCache.resetBag]
    rw [lookupBag_foldl_set]
    by_cases hm : m ∈ HTTPMethodsANY
    · simp [hm, lookupBag]
    · simp [hm, lookupBag_none_of_keys mc.items HTTPMethodsANY hkeys m hm]
  · intro h0 m
    simp only [MemoryRouterCache.OnTick, if_neg h0]
    exact lookupBag_onTickMap mc.items mc.MaxItems m

theorem cache_onTick_eviction_witness :
    (MemoryRouterCache.OnTick
        (⟨[("GET", [("/x", 5)]), ("POST", [])], 0⟩ : MemoryRouterCache Nat)).GetItem
        "GET" "/x" = none ∧
      lookupBag (MemoryRouterCache.OnTick
        (⟨[("GET", [("/x", 5)]), ("POST", [])], 2⟩ : MemoryRouterCache Nat)).items
        "GET" = some [("/x", 5)] := by
  constructor
  · exact (cache_onTick_eviction
      (⟨[("GET", [("/x", 5)]), ("POST", [])], 0⟩ : MemoryRouterCache Nat)).1
      (by decide) (by decide) "GET" "/x"
  · exact ((cache_onTick_eviction
      (⟨[("GET", [("/x", 5)]), ("POST", [])], 2⟩ : MemoryRouterCache Nat)).2
      (by decide) "GET").trans (by decide)

/-- C7: a lookup for a key never stored returns absent rather than failing —
in particular every lookup on a fresh cache — and once the asynchronous
write of `addItem` has completed (with no later write to the same key), the
lookup returns an entry equal to the stored context, the write replacing any
previous entry for that key (last write wins) and leaving every other key
untouched. -/
theorem cache_getItem_addItem :
    (∀ (m u : String), (NewMemoryRouterCache α).GetItem m u = none) ∧
    (∀ (mc mc2 : MemoryRouterCache α) (m u : String) (v : α),
        mc.AddItem m u v = some mc2 → mc2.GetItem m u = some v) ∧
    (∀ (mc mc2 : MemoryRouterCache α) (m u m2 u2 : String) (v : α),
        mc.AddItem m u v = some mc2 → ¬(m2 = m ∧ u2 = u) →
        mc2.GetItem m2 u2 = mc.GetItem m2 u2) := by
  refine ⟨fun m u => ?_, fun mc mc2 m u v h => ?_, fun mc mc2 m u m2 u2 v h hne => ?_⟩
  · simp only [NewMemoryRouterCache, MemoryRouterCache.resetBag, MemoryRouterCache.GetItem]
    rw [lookupBag_foldl_set]
    by_cases hm : m ∈ HTTPMethodsANY <;> simp [hm, lookupBag]
  · cases hl : lookupBag mc.items m with
    | none => simp [MemoryRouterCache.AddItem, hl] at h
    | some inner =>
      simp only [MemoryRouterCache.AddItem, hl, Option.some.injEq] at h
      rw [← h]
      simp [MemoryRouterCache.GetItem, lookupBag_setBag_self]
  · cases hl : lookupBag mc.items m with
    | none => simp [MemoryRouterCache.AddItem, hl] at h
    | some inner =>
      simp only [MemoryRouterCache.AddItem, hl, Option.some.injEq] at h
      rw [← h]
      by_cases hm2 : m2 = m
      · subst hm2
        have hu2 : ¬u2 = u := fun hu => hne ⟨rfl, hu⟩
        simp [MemoryRouterCache.GetItem, lookupBag_setBag_self, hl,
          lookupBag_setBag_ne inner u u2 v hu2]
      · simp [MemoryRouterCache.GetItem, lookupBag_setBag_ne mc.items m m2 _ hm2]

theorem cache_getItem_addItem_witness :
    (NewMemoryRouterCache Nat).GetItem "GET" "/y" = none ∧
      (((NewMemoryRouterCache Nat).AddItem "GET" "/x" 7).getD
          (NewMemoryRouterCache Nat)).GetItem "GET" "/x" = some 7 ∧
      (((NewMemoryRouterCache Nat).AddItem "GET" "/x" 7).getD
          (NewMemoryRouterCache Nat)).GetItem "GET" "/y" = none := by
  refine ⟨cache_getItem_addItem.1 "GET" "/y", ?_, ?_⟩
  · exact cache_getItem_addItem.2.1 (NewMemoryRouterCache Nat) _ "GET" "/x" 7 (by decide)
  · exact (cache_getItem_addItem.2.2 (NewMemoryRouterCache Nat) _ "GET" "/x" "GET" "/y" 7
      (by decide) (by decide)).trans (cache_getItem_addItem.1 "GET" "/y")

/-- C10: on a fresh cache, `addItem`'s nested-map store is safe exactly for
the methods `resetBag` pre-initialized: it succeeds for every method in
`HTTPMethods.ANY`, and for any other method string the inner map is nil and
the store faults (the error branch, modelled `none`, is reached). -/
theorem cache_addItem_method_precondition (m u : String) (v : α) :
    (m ∈ HTTPMethodsANY → ((NewMemoryRouterCache α).AddItem m u v).isSome = true) ∧
    (m ∉ HTTPMethodsANY → (NewMemoryRouterCache α).AddItem m u v = none) := by
  have hl : lookupBag (NewMemoryRouterCache α).items m
      = if m ∈ HTTPMethodsANY then some [] else none := by
    simp only [NewMemoryRouterCache, MemoryRouterCache.resetBag]
    rw [lookupBag_foldl_set]
    by_cases hm : m ∈ HTTPMethodsANY <;> simp [hm, lookupBag]
  constructor
  · intro hm
    simp [MemoryRouterCache.AddItem, hl, hm]
  · intro hm
    simp [MemoryRouterCache.AddItem, hl, hm]

theorem cache_addItem_method_precondition_witness :
    ((NewMemoryRouterCache Nat).AddItem "GET" "/x" 1).isSome = true ∧
      (NewMemoryRouterCache Nat).AddItem "FOO" "/x" 1 = none :=
  ⟨(cache_addItem_method_precondition "GET" "/x" 1).1 (by decide),
    (cache_addItem_method_precondition "FOO" "/x" 1).2 (by decide)⟩

theorem redirectLocation_of_cleanStable (up : String) (h : cleanStable (toggleSlash up)) :
    redirectLocation up = toggleSlash up := by
  rcases h with ⟨hnl, hcl⟩ | ⟨hl, hcl, hncl⟩ | hroot
  · simp [redirectLocation, hnl, hcl]
  · simp [redirectLocation, hl, hncl, hcl]
  · simp only [redirectLocation, hroot]
    decide

/-- C4: on a `mustRedirect` trie signal with path correction enabled, the
router emits a 301 redirect whose Location is the request URL path with its
trailing slash toggled — `/` when the path has length at most one, the
trailing slash stripped when present, appended otherwise — provided the
toggled path is `Clean`-stable (true whenever the registered paths are
clean); concretely, with `/home/` registered, requesting `/home` yields a
301 redirect to `/home/`, while requesting `/home/` matches directly with no
redirect. -/
theorem find_mustRedirect_location :
    (∀ (t : SpecTree α) (lookupPath urlPath : String),
        getBranch t lookupPath = (none, true) → cleanStable (toggleSlash urlPath) →
        find t true lookupPath urlPath =
          .redirect
            (if urlPath.length ≤ 1 then "/"
              else if urlPath.data.getLast? = some '/' then String.mk urlPath.data.dropLast
              else urlPath ++ "/")
            301 (t.method == "GET")) ∧
    (find (⟨"GET", [("/home/", [0])]⟩ : SpecTree Nat) true "/home" "/home"
        = .redirect "/home/" 301 true) ∧
    (find (⟨"GET", [("/home/", [0])]⟩ : SpecTree Nat) true "/home/" "/home/"
        = .matched [0]) := by
  refine ⟨fun t lookupPath urlPath hgb hcs => ?_, by decide, by decide⟩
  simp [find, hgb, redirectLocation_of_cleanStable urlPath hcs, toggleSlash]

theorem find_mustRedirect_location_witness :
    find (⟨"GET", [("/dir", [0])]⟩ : SpecTree Nat) true "/dir/" "/dir/"
        = .redirect "/dir" 301 true := by
  exact (find_mustRedirect_location.1 (⟨"GET", [("/dir", [0])]⟩ : SpecTree Nat)
    "/dir/" "/dir/" (by decide) (by decide)).trans (by decide)

/-- C5 counterexample: with path correction enabled and `/home/` registered
in a POST tree, the POST request for `/home` — a method that is not GET —
still receives the redirect-based slash correction (a 301 with Location
`/home/`, merely without the HTML note body), contradicting the claim that
the correction is not applied for non-GET methods. -/
theorem find_redirect_nonGet_applied :
    find (⟨"POST", [("/home/", [0])]⟩ : SpecTree Nat) true "/home" "/home"
        = .redirect "/home/" 301 false ∧ ¬(("POST" : String) = "GET") :=
  ⟨by decide, by decide⟩

/-- C5 amended: on a `mustRedirect` signal with path correction enabled the
301 redirect is emitted for every method; only a GET tree's response carries
the minimal HTML hint body (the note flag is set exactly when the tree's
method is GET), so a non-GET request receives the same redirect without the
body rather than no redirect. -/
theorem find_redirect_note_only_get (t : SpecTree α) (lookupPath urlPath : String)
    (hgb : getBranch t lookupPath = (none, true)) :
    find t true lookupPath urlPath
        = .redirect (redirectLocation urlPath) 301 (t.method == "GET") := by
  simp [find, hgb]

theorem find_redirect_note_only_get_witness :
    find (⟨"GET", [("/w/", [0])]⟩ : SpecTree Nat) true "/w" "/w"
        = .redirect "/w/" 301 true ∧
      find (⟨"PUT", [("/w/", [0])]⟩ : SpecTree Nat) true "/w" "/w"
        = .redirect "/w/" 301 false := by
  constructor
  · exact (find_redirect_note_only_get (⟨"GET", [("/w/", [0])]⟩ : SpecTree Nat) "/w" "/w"
      (by decide)).trans (by decide)
  · exact (find_redirect_note_only_get (⟨"PUT", [("/w/", [0])]⟩ : SpecTree Nat) "/w" "/w"
      (by decide)).trans (by decide)

theorem hostPrefixIter_shift (host : String) (k : Nat) (p : String) :
    hostPrefixIter host k (host ++ p) = hostPrefixIter host (k + 1) p := by
  induction k with
  | zero => rfl
  | succ k ih => simp [hostPrefixIter, ih]

/-- C9 counterexample: in a garden whose first tree is host-scoped (method
GET, domain `example.com`) and whose second is a global POST tree, a POST
request with host `example.com` for `/a` is matched by the global tree yet
looked up with the host-prefixed path `example.com/a`: the matched tree is
not host-scoped but its lookup path was modified, contradicting the claim
that paths looked up in non-host-scoped trees are unmodified. -/
theorem domain_prefix_leak :
    processRequestDomain [⟨"GET", true, "example.com"⟩, ⟨"POST", false, ""⟩]
        "example.com" "POST" "/a"
        = some (⟨"POST", false, ""⟩, "example.com/a") ∧
      ¬(("example.com/a" : String) = "/a") :=
  ⟨by decide, by decide⟩

/-- C9 amended: a host-scoped tree is eligible only when its domain equals
the request host; the path handed to the matched tree is the request path
prefixed with the host once per domain-matching host-scoped tree the loop
examined up to and including the matched one — at least once when the
matched tree is host-scoped, and exactly the unmodified path whenever the
garden contains no host-scoped tree. -/
theorem domain_processRequest_prefixing (garden : List TreeD) (host method p0 : String)
    (t : TreeD) (p : String)
    (h : processRequestDomain garden host method p0 = some (t, p)) :
    (t.hosts = true → t.domain = host) ∧
      (∃ k, p = hostPrefixIter host k p0 ∧ (t.hosts = true → 1 ≤ k)) ∧
      ((∀ tr ∈ garden, tr.hosts = false) → t.hosts = false ∧ p = p0) := by
  induction garden generalizing p0 with
  | nil => simp [processRequestDomain] at h
  | cons t1 rest ih =>
    simp only [processRequestDomain] at h
    by_cases h1 : t1.hosts = true
    · rw [if_pos h1] at h
      by_cases h2 : t1.domain = host
      · rw [if_neg (fun hne => hne h2)] at h
        by_cases h3 : t1.method = method
        · rw [if_pos h3] at h
          obtain ⟨rfl, rfl⟩ : t1 = t ∧ host ++ p0 = p := by simpa using h
          refine ⟨fun _ => h2, ⟨1, by simp [hostPrefixIter], fun _ => Nat.le_refl 1⟩,
            fun hall => ?_⟩
          exact absurd (hall t1 (List.mem_cons_self _ _)) (by simp [h1])
        · rw [if_neg h3] at h
          obtain ⟨he, ⟨k, hk, -⟩, -⟩ := ih (host ++ p0) h
          refine ⟨he, ⟨k + 1, ?_, fun _ => by omega⟩, fun hall => ?_⟩
          · rw [hk]
            exact hostPrefixIter_shift host k p0
          · exact absurd (hall t1 (List.mem_cons_self _ _)) (by simp [h1])
      · rw [if_pos h2] at h
        obtain ⟨he, hex, h3rd⟩ := ih p0 h
        exact ⟨he, hex, fun hall => h3rd fun tr htr => hall tr (List.mem_cons_of_mem _ htr)⟩
    · have hf : t1.hosts = false := by
        cases hb : t1.hosts
        · rfl
        · exact absurd hb h1
      rw [if_neg h1] at h
      by_cases h3 : t1.method = method
      · rw [if_pos h3] at h
        obtain ⟨rfl, rfl⟩ : t1 = t ∧ p0 = p := by simpa using h
        exact ⟨fun hh => absurd hh h1, ⟨0, rfl, fun hh => absurd hh h1⟩,
          fun _ => ⟨hf, rfl⟩⟩
      · rw [if_neg h3] at h
        obtain ⟨he, hex, h3rd⟩ := ih p0 h
        exact ⟨he, hex, fun hall => h3rd fun tr htr => hall tr (List.mem_cons_of_mem _ htr)⟩

theorem domain_processRequest_prefixing_witness :
    ((⟨"POST", false, ""⟩ : TreeD).hosts = true →
        (⟨"POST", false, ""⟩ : TreeD).domain = "example.com") ∧
      (∃ k, ("example.com/a" : String) = hostPrefixIter "example.com" k "/a" ∧
        ((⟨"POST", false, ""⟩ : TreeD).hosts = true → 1 ≤ k)) ∧
      ((∀ tr ∈ [(⟨"GET", true, "example.com"⟩ : TreeD), ⟨"POST", false, ""⟩],
          tr.hosts = false) →
        (⟨"POST", false, ""⟩ : TreeD).hosts = false ∧ ("example.com/a" : String) = "/a") :=
  domain_processRequest_prefixing [⟨"GET", true, "example.com"⟩, ⟨"POST", false, ""⟩]
    "example.com" "POST" "/a" ⟨"POST", false, ""⟩ "example.com/a" (by decide)

end Iris
